import Mathlib

/-!
Verification of the log synchronization and deduplication engine of
panorama_log_viewer.py, shallowly embedded in Lean.

The embedding models exactly what the Python code touches of an
xml.etree.ElementTree entry element:

* an entry has a logid attribute (absent or a string) and a list of child
  elements;
* a child element has a tag, optional text, and possibly sub-children;
* Element.findtext(tag) returns None when no child with the tag exists and
  the child element's text (or the empty string when the text is None)
  otherwise;
* testing an Element in boolean context (as the source does in
  max(... for entry in existing_entries if entry.find("time_generated")))
  tests whether the element has sub-children, NOT whether it exists:
  xml.etree Element.__bool__ is len(children) != 0.

The persisted per-category cache file is modelled as absent, corrupt
(unparseable XML) or a valid store holding a list of entries in document
order. Strings are compared lexicographically by code point, as Python
compares str values; .lower() is modelled by String.toLower (the data the
program handles is ASCII).
-/

namespace Panorama

/-- A child element of an entry: tag, text, and whether it has sub-child
elements (which is what Python boolean-tests an Element for). -/
structure Child where
  tag : String
  text : Option String
  hasChildren : Bool
deriving DecidableEq

/-- An entry element: its logid attribute (entry.attrib.get("logid")) and
its list of child elements in document order. -/
structure Entry where
  logid : Option String
  children : List Child
deriving DecidableEq

/-- Element.find(tag): the first child with the given tag, if any. -/
def Entry.findChild (e : Entry) (t : String) : Option Child :=
  e.children.find? (fun c => c.tag == t)

/-- Element.findtext(tag): None when no child with the tag exists, the
child's text (empty string when its text is None) otherwise. -/
def Entry.findtext (e : Entry) (t : String) : Option String :=
  (e.findChild t).map (fun c => c.text.getD "")

/-- Boolean test of entry.find(tag) as the Python source writes it:
false when the child is missing, otherwise the child's truthiness, which
for an ElementTree Element is whether it has sub-children. -/
def Entry.findTruthy (e : Entry) (t : String) : Bool :=
  match e.findChild t with
  | none => false
  | some c => c.hasChildren

/-- Python truthiness of a string-or-None value. -/
def strTruthy : Option String → Bool
  | none => false
  | some s => s != ""

/-- Code-point comparison of two characters. -/
def charLtB (a b : Char) : Bool := decide (a.toNat < b.toNat)

/-- Lexicographic code-point comparison of two character lists. -/
def charListLt : List Char → List Char → Bool
  | _, [] => false
  | [], _ :: _ => true
  | a :: as, b :: bs => charLtB a b || (a == b && charListLt as bs)

/-- Python string less-than: lexicographic by code point. -/
def pyStrLt (s t : String) : Bool := charListLt s.data t.data

/-- Python max(strings, default="") via a left fold, replacing the running
maximum whenever a later string compares greater. -/
def maxString (l : List String) : String :=
  l.foldl (fun acc s => if pyStrLt acc s then s else acc) ""

/-- The persisted cache file for one log category: absent, corrupt
(ET.parse raises), or valid with its entries in document order. -/
inductive CacheFile
  | absent
  | corrupt
  | valid (entries : List Entry)
deriving DecidableEq

/-- The entries persisted in a cache file ([] when absent or unreadable). -/
def entriesOf : CacheFile → List Entry
  | .absent => []
  | .corrupt => []
  | .valid es => es

/-- The latest = max(entry.findtext("time_generated") for entry in
existing_entries if entry.find("time_generated")), default="") computation
of download_and_merge_logs. A missing file gives "", and a corrupt file
gives "" because the first ET.parse is inside a try/except that sets
latest = "". Note the generator guard boolean-tests the Element, so an
entry whose time_generated element is a leaf (no sub-children) is excluded
from the maximum. -/
def computeLatest : CacheFile → String
  | .valid es =>
      maxString ((es.filter (fun e => e.findTruthy "time_generated")).filterMap
        (fun e => e.findtext "time_generated"))
  | .corrupt => ""
  | .absent => ""

/-- The per-candidate filter of the incremental merge: tg =
entry.findtext("time_generated"); accepted iff tg is truthy and
tg > latest. -/
def acceptsIncr (latest : String) (e : Entry) : Bool :=
  match e.findtext "time_generated" with
  | none => false
  | some s => s != "" && pyStrLt latest s

/-- The new_entries list built by the incremental merge loop of
download_and_merge_logs. -/
def newIncrEntries (store : CacheFile) (cands : List Entry) : List Entry :=
  cands.filter (acceptsIncr (computeLatest store))

/-- Outcome of one merge call: the state of the cache file afterwards and
whether the call completed without an exception reaching the outer
handler. -/
structure MergeResult where
  file : CacheFile
  ok : Bool
deriving DecidableEq

/-- The FIN-branch merge of download_and_merge_logs (lines 594-632):
filter the received candidates against latest, and when new_entries is
non-empty re-parse the cache file (UNGUARDED: a corrupt file raises here
and the outer except swallows it, leaving the file untouched), append the
accepted entries under the log element and rewrite the file. A valid store
is one written by this code, whose tree contains the log element. -/
def download_and_merge_logs (store : CacheFile) (cands : List Entry) : MergeResult :=
  let newEntries := newIncrEntries store cands
  if newEntries.isEmpty then ⟨store, true⟩
  else
    match store with
    | .corrupt => ⟨.corrupt, false⟩
    | .absent => ⟨.valid newEntries, true⟩
    | .valid es => ⟨.valid (es ++ newEntries), true⟩

/-- The FIN-branch merge of download_and_merge_logs_with_skip (lines
698-750): when skip > 0 every received entry is taken as-is (no timestamp
filter); when skip = 0 the same incremental filter as
download_and_merge_logs is applied. The write-back is identical, with the
same unguarded re-parse of an existing file. -/
def download_and_merge_logs_with_skip (store : CacheFile) (cands : List Entry)
    (skip : Nat) : MergeResult :=
  let newEntries := if skip > 0 then cands else newIncrEntries store cands
  if newEntries.isEmpty then ⟨store, true⟩
  else
    match store with
    | .corrupt => ⟨.corrupt, false⟩
    | .absent => ⟨.valid newEntries, true⟩
    | .valid es => ⟨.valid (es ++ newEntries), true⟩

/-! ## Entry normalizer (parse_saved_config_logs / parse_saved_system_logs) -/

/-- The dict built for one config entry by parse_saved_config_logs. -/
structure ConfigLog where
  logID : Option String
  received : Option String
  serial : Option String
  deviceName : Option String
  sourceIP : Option String
  cmdType : Option String
  admin : Option String
  accessMethod : Option String
  result : Option String
  configSection : Option String
  fullPath : Option String
deriving DecidableEq

/-- Field extraction of parse_saved_config_logs for one entry. -/
def mkConfigLog (e : Entry) : ConfigLog :=
  { logID := e.logid
    received := e.findtext "receive_time"
    serial := e.findtext "serial"
    deviceName := e.findtext "device_name"
    sourceIP := e.findtext "host"
    cmdType := e.findtext "cmd"
    admin := e.findtext "admin"
    accessMethod := e.findtext "client"
    result := e.findtext "result"
    configSection := e.findtext "path"
    fullPath := e.findtext "full-path" }

/-- Substring machinery for Python's in operator on strings:
needle-is-a-front-segment test on character lists. -/
def listPrefixOf : List Char → List Char → Bool
  | [], _ => true
  | _ :: _, [] => false
  | a :: as, b :: bs => a == b && listPrefixOf as bs

/-- needle occurs somewhere in hay (at the front, or further right). -/
def subOccurs (needle : List Char) : List Char → Bool
  | [] => needle.isEmpty
  | c :: rest => listPrefixOf needle (c :: rest) || subOccurs needle rest

/-- Python needle in hay on strings. -/
def strContains (hay needle : String) : Bool :=
  subOccurs needle.data hay.data

/-- The failed-commit test of parse_saved_config_logs line 828:
log["Result"] and "fail" in log["Result"].lower(). -/
def isFailed (l : ConfigLog) : Bool :=
  strTruthy l.result && strContains (l.result.getD "").toLower "fail"

/-- The loop of parse_saved_config_logs (lines 805-829), carrying the
seen_log_ids set: an entry is skipped iff its logid is truthy and already
seen; a truthy logid is then recorded; the built dict is appended to
config_logs, and also to failed_commits when the Result test fires.
Returns (config_logs, failed_commits). -/
def parse_saved_config_logs_aux (seen : List String) :
    List Entry → List ConfigLog × List ConfigLog
  | [] => ([], [])
  | e :: rest =>
    if strTruthy e.logid && seen.contains (e.logid.getD "") then
      parse_saved_config_logs_aux seen rest
    else
      let seen' := if strTruthy e.logid then (e.logid.getD "") :: seen else seen
      let l := mkConfigLog e
      let p := parse_saved_config_logs_aux seen' rest
      (l :: p.1, if isFailed l then l :: p.2 else p.2)

/-- parse_saved_config_logs on the entries of a parsed cache file. -/
def parse_saved_config_logs (es : List Entry) : List ConfigLog × List ConfigLog :=
  parse_saved_config_logs_aux [] es

/-- Loading the config category from disk: a valid file is parsed; a
corrupt file raises inside the try, and the except handler sets both
config_logs and failed_commits to []; a missing file yields no logs
(the early return resets config_logs; we model the resulting view as
empty). -/
def load_config_logs : CacheFile → List ConfigLog × List ConfigLog
  | .valid es => parse_saved_config_logs es
  | .corrupt => ([], [])
  | .absent => ([], [])

/-- The dict built for one system entry by parse_saved_system_logs. -/
structure SystemLog where
  entryNo : Nat
  logID : Option String
  time : Option String
  typ : Option String
  severity : Option String
  eventID : Option String
  description : Option String
  admin : Option String
  host : Option String
  client : Option String
deriving DecidableEq

/-- Field extraction of parse_saved_system_logs for one entry, with the
1-based enumerate position (the "Entry #" field). -/
def mkSystemLog (i : Nat) (e : Entry) : SystemLog :=
  { entryNo := i
    logID := e.logid
    time := e.findtext "time_generated"
    typ := e.findtext "type"
    severity := e.findtext "severity"
    eventID := e.findtext "eventid"
    description := e.findtext "opaque"
    admin := e.findtext "admin"
    host := e.findtext "host"
    client := e.findtext "client" }

/-- The loop of parse_saved_system_logs (lines 850-866): the raw logid
value (None included) is looked up in seen_log_ids and recorded
unconditionally, so entries without a logid attribute all share the None
identity; the enumerate counter advances on every entry, skipped or not. -/
def parse_saved_system_logs_aux (seen : List (Option String)) (i : Nat) :
    List Entry → List SystemLog
  | [] => []
  | e :: rest =>
    if seen.contains e.logid then
      parse_saved_system_logs_aux seen (i + 1) rest
    else
      mkSystemLog i e :: parse_saved_system_logs_aux (e.logid :: seen) (i + 1) rest

/-- parse_saved_system_logs on the entries of a parsed cache file
(enumerate starts at 1). -/
def parse_saved_system_logs (es : List Entry) : List SystemLog :=
  parse_saved_system_logs_aux [] 1 es

/-! ## Spec-side first-occurrence dedup (for comparison with the code) -/

/-- Spec-side dedup, system keying: keep the first occurrence of every raw
logid attribute value (missing treated as the single value None), paired
with its 1-based position in the original list. -/
def firstOccIdx (seen : List (Option String)) (i : Nat) :
    List Entry → List (Nat × Entry)
  | [] => []
  | e :: rest =>
    if seen.contains e.logid then
      firstOccIdx seen (i + 1) rest
    else
      (i, e) :: firstOccIdx (e.logid :: seen) (i + 1) rest

/-- Spec-side dedup, config keying: keep the first occurrence of every
logid value among entries (keyed by the attribute value, missing read as
""). Compared against the config normalizer on inputs whose logids are all
truthy. -/
def firstOccCfg (seen : List String) : List Entry → List Entry
  | [] => []
  | e :: rest =>
    if seen.contains (e.logid.getD "") then
      firstOccCfg seen rest
    else
      e :: firstOccCfg ((e.logid.getD "") :: seen) rest

/-! ## Query/filter engine (search_logs, lines 238-243) -/

/-- Python str(value) for a dict value that is a string or None. -/
def pyStr : Option String → String
  | none => "None"
  | some s => s

/-- log.values() in dict insertion order. -/
def valuesOf (l : ConfigLog) : List (Option String) :=
  [l.logID, l.received, l.serial, l.deviceName, l.sourceIP, l.cmdType,
   l.admin, l.accessMethod, l.result, l.configSection, l.fullPath]

/-- The per-entry test of the search loop: some field value satisfies
term.lower() in str(value).lower() (the loop appends on the first hit and
breaks). -/
def matchesTerm (term : String) (l : ConfigLog) : Bool :=
  (valuesOf l).any (fun v => strContains (pyStr v).toLower term.toLower)

/-- The matches list built by search_logs over config_logs. -/
def search_logs (term : String) (logs : List ConfigLog) : List ConfigLog :=
  logs.filter (matchesTerm term)

/-! ## Concrete data for evaluation theorems and witnesses -/

/-- A leaf time_generated child element (text only, no sub-children), as
the provider actually returns it. -/
def tgChild (s : String) : Child :=
  ⟨"time_generated", some s, false⟩

/-- Concrete entry: logid 1, time_generated 2024/01/01 00:00:00. -/
def e1 : Entry := ⟨some "1", [tgChild "2024/01/01 00:00:00"]⟩

/-- Concrete entry: logid 1 again, one day later. -/
def e2 : Entry := ⟨some "1", [tgChild "2024/01/02 00:00:00"]⟩

/-- Concrete entry: logid 2, same timestamp as e1. -/
def e3 : Entry := ⟨some "2", [tgChild "2024/01/01 00:00:00"]⟩

/-- Concrete entry with no time_generated child at all (as config-category
entries are shaped: they carry receive_time instead). -/
def eNoTg : Entry := ⟨some "9", [⟨"receive_time", some "2024/01/01 00:00:00", false⟩]⟩

/-- Concrete entry with an empty logid attribute value. -/
def eEmptyId : Entry := ⟨some "", []⟩

/-- Concrete entries with logid A (twice) and B, for dedup witnesses. -/
def eA : Entry := ⟨some "A", [⟨"admin", some "alice", false⟩]⟩

/-- Second occurrence of logid A with a different admin field. -/
def eA2 : Entry := ⟨some "A", [⟨"admin", some "bob", false⟩]⟩

/-- Concrete entry with logid B. -/
def eB : Entry := ⟨some "B", [⟨"admin", some "carol", false⟩]⟩

/-- Concrete entry with no logid attribute. -/
def eNoId : Entry := ⟨none, [⟨"admin", some "dave", false⟩]⟩

/-- A second entry with no logid attribute. -/
def eNoId2 : Entry := ⟨none, [⟨"admin", some "erin", false⟩]⟩

/-! ## Theorems -/

/-- Claim C2: the second of two identical incremental syncs re-accepts the
same entry, because latest is computed as the maximum over persisted
entries whose time_generated element boolean-tests true — and a leaf
element is always falsy — so latest is "" and nothing is filtered. The
store holds one entry after the first sync and two after the second. -/
theorem incremental_merge_not_idempotent :
    (entriesOf (download_and_merge_logs .absent [e1]).file).length = 1 ∧
    (entriesOf (download_and_merge_logs
      (download_and_merge_logs .absent [e1]).file [e1]).file).length = 2 :=
  ⟨rfl, rfl⟩

/-- Claim C3: for a store holding e1 (timestamp 2024/01/01 00:00:00 in a
leaf time_generated element), the code computes latest = "" — not the
maximum persisted timestamp — and therefore accepts a candidate whose
timestamp is equal to the persisted maximum instead of rejecting it. -/
theorem equal_timestamp_candidate_accepted :
    computeLatest (.valid [e1]) = "" ∧
    e3 ∈ newIncrEntries (.valid [e1]) [e3] := by
  constructor
  · rfl
  · decide

/-- Claim C1: the incremental merge performs no logID deduplication. With
e1 (logid 1) persisted, the candidate e2 carries the same logid 1 and a
newer timestamp; it passes the timestamp filter and is appended, leaving
two persisted entries that share logid 1. -/
theorem merge_no_logid_dedup_counterexample :
    (download_and_merge_logs (.valid [e1]) [e2]).file = .valid [e1, e2] ∧
    ((entriesOf (download_and_merge_logs (.valid [e1]) [e2]).file).countP
      (fun e => e.logid == some "1")) = 2 :=
  ⟨rfl, rfl⟩

/-- Claim C1 as amended: the merge is logID-blind — every candidate that
passes the timestamp filter is appended to the persisted store, whether or
not a persisted entry with the same logID exists; dedup by logID happens
only later, in the normalizer. -/
theorem merge_appends_accepted_candidate_regardless_of_logid
    (es cands : List Entry) (c : Entry) (hc : c ∈ cands)
    (hacc : acceptsIncr (computeLatest (.valid es)) c = true) :
    c ∈ entriesOf (download_and_merge_logs (.valid es) cands).file := by
  have hmem : c ∈ newIncrEntries (.valid es) cands :=
    List.mem_filter.mpr ⟨hc, hacc⟩
  have hne : (newIncrEntries (.valid es) cands).isEmpty = false := by
    cases h : newIncrEntries (.valid es) cands with
    | nil => rw [h] at hmem; exact absurd hmem (List.not_mem_nil c)
    | cons a l => rfl
  unfold download_and_merge_logs
  simp only [hne, Bool.false_eq_true, if_false]
  exact List.mem_append_right es hmem

/-- Witness for the amended C1: with logid 1 already persisted, the
same-logid candidate e2 ends up persisted as well. -/
theorem merge_appends_accepted_candidate_regardless_of_logid_witness :
    e2 ∈ entriesOf (download_and_merge_logs (.valid [e1]) [e2]).file :=
  merge_appends_accepted_candidate_regardless_of_logid [e1] [e2] e2
    (by decide) (by decide)

/-- Claim C4: a skip-based (append-mode) merge applies no timestamp
filter: for every readable store state and every candidate list, all
received entries are appended and the call completes cleanly. -/
theorem skip_merge_appends_all_candidates
    (store : CacheFile) (cands : List Entry) (skip : Nat)
    (hskip : 0 < skip) (hstore : store ≠ .corrupt) :
    entriesOf (download_and_merge_logs_with_skip store cands skip).file
      = entriesOf store ++ cands ∧
    (download_and_merge_logs_with_skip store cands skip).ok = true := by
  cases store with
  | corrupt => exact absurd rfl hstore
  | absent =>
      by_cases hc : cands.isEmpty
      · have hnil : cands = [] := List.isEmpty_iff.mp hc
        subst hnil
        simp [download_and_merge_logs_with_skip, entriesOf, hskip]
      · simp [download_and_merge_logs_with_skip, entriesOf, hskip, hc]
  | valid es =>
      by_cases hc : cands.isEmpty
      · have hnil : cands = [] := List.isEmpty_iff.mp hc
        subst hnil
        simp [download_and_merge_logs_with_skip, entriesOf, hskip]
      · simp [download_and_merge_logs_with_skip, entriesOf, hskip, hc]

/-- Witness for C4: appending candidate e2 to a store holding e1 with
skip 5000 persists both entries. -/
theorem skip_merge_appends_all_candidates_witness :
    entriesOf (download_and_merge_logs_with_skip (.valid [e1]) [e2] 5000).file
      = entriesOf (.valid [e1]) ++ [e2] ∧
    (download_and_merge_logs_with_skip (.valid [e1]) [e2] 5000).ok = true :=
  skip_merge_appends_all_candidates (.valid [e1]) [e2] 5000
    (by decide) (by decide)

/-- Claim C6: loading a corrupt store does return an empty collection, but
a subsequent merge does NOT overwrite the corrupt file: the accepted
candidate e1 makes new_entries non-empty, the unguarded re-parse of the
existing corrupt file raises, the outer handler swallows the exception,
and the file is left corrupt with nothing persisted. -/
theorem corrupt_store_merge_fails_not_overwrites :
    load_config_logs .corrupt = ([], []) ∧
    download_and_merge_logs .corrupt [e1] = ⟨.corrupt, false⟩ :=
  ⟨rfl, rfl⟩

/-- Claim C9: in incremental (non-skip) mode a candidate whose
time_generated child is missing or empty-texted is never accepted: it is
not among the new entries, and it is persisted after the merge only if it
was persisted before. -/
theorem no_time_generated_dropped_incremental
    (store : CacheFile) (cands : List Entry) (e : Entry)
    (h : e.findtext "time_generated" = none ∨ e.findtext "time_generated" = some "") :
    e ∉ newIncrEntries store cands ∧
    (e ∉ entriesOf store → e ∉ entriesOf (download_and_merge_logs store cands).file) := by
  have hacc : acceptsIncr (computeLatest store) e = false := by
    unfold acceptsIncr
    rcases h with h | h
    · rw [h]
    · rw [h]; simp
  have hnotmem : e ∉ newIncrEntries store cands := by
    intro hmem
    have h2 := (List.mem_filter.mp hmem).2
    rw [hacc] at h2
    exact Bool.false_ne_true h2
  refine ⟨hnotmem, fun hstore hmem => ?_⟩
  unfold download_and_merge_logs at hmem
  by_cases hne : (newIncrEntries store cands).isEmpty
  · rw [if_pos hne] at hmem
    exact hstore hmem
  · rw [if_neg hne] at hmem
    cases store with
    | corrupt => exact List.not_mem_nil e hmem
    | absent => exact hnotmem hmem
    | valid es =>
        rcases List.mem_append.mp hmem with h3 | h3
        · exact hstore h3
        · exact hnotmem h3

/-- Witness for C9: a config-shaped candidate (receive_time only, no
time_generated) is dropped by the incremental merge. -/
theorem no_time_generated_dropped_incremental_witness :
    eNoTg ∉ newIncrEntries (.valid [e1]) [eNoTg] ∧
    (eNoTg ∉ entriesOf (.valid [e1]) →
      eNoTg ∉ entriesOf (download_and_merge_logs (.valid [e1]) [eNoTg]).file) :=
  no_time_generated_dropped_incremental (.valid [e1]) [eNoTg] eNoTg (Or.inl rfl)

theorem listPrefixOf_iff : ∀ (n h : List Char), listPrefixOf n h = true ↔ ∃ t, h = n ++ t
  | [], h => by simp [listPrefixOf]
  | a :: as, [] => by simp [listPrefixOf]
  | a :: as, b :: bs => by
      rw [listPrefixOf, Bool.and_eq_true, beq_iff_eq, listPrefixOf_iff as bs]
      constructor
      · rintro ⟨rfl, t, rfl⟩
        exact ⟨t, rfl⟩
      · rintro ⟨t, ht⟩
        rw [List.cons_append] at ht
        injection ht with h1 h2
        exact ⟨h1.symm, t, h2⟩

theorem subOccurs_iff : ∀ (n h : List Char), subOccurs n h = true ↔ ∃ a b, h = a ++ n ++ b
  | n, [] => by
      rw [subOccurs]
      constructor
      · intro hn
        exact ⟨[], [], by simp [List.isEmpty_iff.mp hn]⟩
      · rintro ⟨a, b, hab⟩
        have h1 := hab.symm
        rw [List.append_assoc, List.append_eq_nil] at h1
        rw [List.append_eq_nil] at h1
        simp [List.isEmpty_iff, h1.2.1]
  | n, c :: rest => by
      rw [subOccurs, Bool.or_eq_true, listPrefixOf_iff, subOccurs_iff n rest]
      constructor
      · rintro (⟨t, ht⟩ | ⟨a, b, hab⟩)
        · exact ⟨[], t, by simp [ht]⟩
        · exact ⟨c :: a, b, by simp [hab]⟩
      · rintro ⟨a, b, hab⟩
        cases a with
        | nil =>
            left
            exact ⟨b, by simpa using hab⟩
        | cons x xs =>
            right
            rw [List.cons_append, List.cons_append] at hab
            injection hab with h1 h2
            exact ⟨xs, b, by simpa using h2⟩

theorem strContains_iff (hay needle : String) :
    strContains hay needle = true ↔ ∃ a b, hay.data = a ++ needle.data ++ b :=
  subOccurs_iff needle.data hay.data

theorem isFailed_iff (l : ConfigLog) :
    isFailed l = true ↔
      ∃ r, l.result = some r ∧ r ≠ "" ∧
        ∃ a b, r.toLower.data = a ++ "fail".data ++ b := by
  unfold isFailed strTruthy
  cases hr : l.result with
  | none => simp
  | some r => simp [strContains_iff]

theorem cfg_aux_snd_eq_filter (es : List Entry) : ∀ seen : List String,
    (parse_saved_config_logs_aux seen es).2
      = (parse_saved_config_logs_aux seen es).1.filter isFailed := by
  induction es with
  | nil => intro seen; rfl
  | cons e rest ih =>
      intro seen
      rw [parse_saved_config_logs_aux]
      by_cases hc : strTruthy e.logid && seen.contains (e.logid.getD "")
      · rw [if_pos hc]
        exact ih seen
      · rw [if_neg hc]
        by_cases hf : isFailed (mkConfigLog e)
      <;> simp [hf, List.filter_cons, ih]

/-- Claim C7: a normalized config entry is in failed_commits exactly when
it is among the parsed config logs and its Result field holds a non-empty
string whose lowercasing contains the substring fail. -/
theorem failed_commit_characterization (es : List Entry) (l : ConfigLog) :
    l ∈ (parse_saved_config_logs es).2 ↔
      l ∈ (parse_saved_config_logs es).1 ∧
      ∃ r, l.result = some r ∧ r ≠ "" ∧
        ∃ a b, r.toLower.data = a ++ "fail".data ++ b := by
  rw [parse_saved_config_logs, cfg_aux_snd_eq_filter, List.mem_filter, isFailed_iff]

/-- Claim C8: an entry is among the search matches exactly when it is one
of the config logs and the lowercased term occurs as a substring of the
lowercased Python string representation of at least one of its field
values (a single field match suffices). -/
theorem search_match_characterization (term : String) (logs : List ConfigLog)
    (l : ConfigLog) :
    l ∈ search_logs term logs ↔
      l ∈ logs ∧ ∃ v, v ∈ valuesOf l ∧
        ∃ a b, (pyStr v).toLower.data = a ++ term.toLower.data ++ b := by
  rw [search_logs, List.mem_filter, matchesTerm, List.any_eq_true]
  simp only [strContains_iff]

theorem sys_aux_eq_firstOccIdx (es : List Entry) :
    ∀ (seen : List (Option String)) (i : Nat),
    parse_saved_system_logs_aux seen i es
      = (firstOccIdx seen i es).map (fun p => mkSystemLog p.1 p.2) := by
  induction es with
  | nil => intro seen i; rfl
  | cons e rest ih =>
      intro seen i
      rw [parse_saved_system_logs_aux, firstOccIdx]
      by_cases hc : seen.contains e.logid
      · rw [if_pos hc, if_pos hc, ih]
      · rw [if_neg hc, if_neg hc, List.map_cons, ih]

theorem cfg_aux_fst_eq_firstOccCfg (es : List Entry) : ∀ seen : List String,
    (∀ e ∈ es, strTruthy e.logid = true) →
    (parse_saved_config_logs_aux seen es).1 = (firstOccCfg seen es).map mkConfigLog := by
  induction es with
  | nil => intro seen _; rfl
  | cons e rest ih =>
      intro seen h
      have he : strTruthy e.logid = true := h e (List.mem_cons_self e rest)
      have hrest : ∀ x ∈ rest, strTruthy x.logid = true :=
        fun x hx => h x (List.mem_cons_of_mem e hx)
      rw [parse_saved_config_logs_aux, firstOccCfg]
      simp only [he, Bool.true_and, if_true]
      by_cases hc : seen.contains (e.logid.getD "")
      · rw [if_pos hc, if_pos hc]
        exact ih seen hrest
      · rw [if_neg hc, if_neg hc, List.map_cons]
        simp only []
        rw [ih _ hrest]

/-- Claim C5: the config normalizer is not a pure per-logID dedup: two raw
entries that share the (repeated) logID "" both survive normalization,
yielding two normalized entries with the same logID. -/
theorem config_dedup_counterexample :
    ((parse_saved_config_logs [eEmptyId, eEmptyId]).1).countP
      (fun l => l.logID == some "") = 2 := rfl

/-- Claim C5 as amended: the system normalizer keeps exactly the first
occurrence of each raw logid value for every input list, and the config
normalizer does the same on inputs whose entries all carry a truthy
(non-empty) logid; config entries with a falsy logid escape dedup. -/
theorem normalize_keeps_first_occurrence_per_logid :
    (∀ es : List Entry, parse_saved_system_logs es
        = (firstOccIdx [] 1 es).map (fun p => mkSystemLog p.1 p.2)) ∧
    (∀ es : List Entry, (∀ e ∈ es, strTruthy e.logid = true) →
        (parse_saved_config_logs es).1 = (firstOccCfg [] es).map mkConfigLog) :=
  ⟨fun es => sys_aux_eq_firstOccIdx es [] 1,
   fun es h => cfg_aux_fst_eq_firstOccCfg es [] h⟩

/-- Witness for the amended C5: on logids A, A, B the config normalizer
keeps the first A and drops the second. -/
theorem normalize_keeps_first_occurrence_per_logid_witness :
    (parse_saved_config_logs [eA, eA2, eB]).1
      = (firstOccCfg [] [eA, eA2, eB]).map mkConfigLog :=
  normalize_keeps_first_occurrence_per_logid.2 [eA, eA2, eB] (by decide)

theorem containsIffMem {α : Type} [BEq α] [LawfulBEq α] (l : List α) (a : α) :
    l.contains a = true ↔ a ∈ l := by
  simp

theorem firstOccIdx_countP_none (es : List Entry) :
    ∀ (seen : List (Option String)) (i : Nat),
    (firstOccIdx seen i es).countP (fun p => p.2.logid == none)
      = if (none : Option String) ∈ seen then 0
        else min 1 (es.countP (fun e => e.logid == none)) := by
  induction es with
  | nil =>
      intro seen i
      simp [firstOccIdx]
  | cons e rest ih =>
      intro seen i
      rw [firstOccIdx, List.countP_cons]
      by_cases hc : e.logid ∈ seen
      · rw [if_pos ((containsIffMem _ _).mpr hc), ih]
        by_cases hn : e.logid = none
        · rw [hn] at hc
          rw [if_pos hc, if_pos hc]
        · have hb : (e.logid == none) = false := beq_eq_false_iff_ne.mpr hn
          simp [hb]
      · rw [if_neg (fun h => hc ((containsIffMem _ _).mp h)), List.countP_cons, ih]
        by_cases hn : e.logid = none
        · have hmem : (none : Option String) ∈ e.logid :: seen := by
            rw [hn]; exact List.mem_cons_self _ _
          have hns : (none : Option String) ∉ seen := by rw [hn] at hc; exact hc
          rw [if_pos hmem, if_neg hns]
          simp [hn]
        · have hb : (e.logid == none) = false := beq_eq_false_iff_ne.mpr hn
          have hseen' : ((none : Option String) ∈ e.logid :: seen)
              ↔ ((none : Option String) ∈ seen) := by
            constructor
            · intro h
              rcases List.mem_cons.mp h with h | h
              · exact absurd h.symm hn
              · exact h
            · exact fun h => List.mem_cons_of_mem _ h
          by_cases hcn : (none : Option String) ∈ seen
          · rw [if_pos (hseen'.mpr hcn), if_pos hcn]
            simp [hb]
          · rw [if_neg (fun h => hcn (hseen'.mp h)), if_neg hcn]
            simp [hb]

theorem cfg_aux_countP_none (es : List Entry) : ∀ seen : List String,
    ((parse_saved_config_logs_aux seen es).1).countP (fun l => l.logID == none)
      = es.countP (fun e => e.logid == none) := by
  induction es with
  | nil => intro seen; rfl
  | cons e rest ih =>
      intro seen
      rw [parse_saved_config_logs_aux, List.countP_cons]
      by_cases hskip : (strTruthy e.logid && seen.contains (e.logid.getD "")) = true
      · rw [if_pos hskip, ih]
        have htru : strTruthy e.logid = true := by
          cases h' : strTruthy e.logid
          · rw [h', Bool.false_and] at hskip
            exact absurd hskip Bool.false_ne_true
          · rfl
        have hn : e.logid ≠ none := by
          intro h
          rw [h] at htru
          exact Bool.false_ne_true htru
        have hb : (e.logid == none) = false := beq_eq_false_iff_ne.mpr hn
        simp [hb]
      · rw [if_neg hskip]
        by_cases hn : e.logid = none
        · have hb : (e.logid == none) = true := by rw [hn]; rfl
          simp [List.countP_cons, ih, hb, mkConfigLog]
        · have hb : (e.logid == none) = false := beq_eq_false_iff_ne.mpr hn
          simp [List.countP_cons, ih, hb, mkConfigLog]

theorem firstOccIdx_mem_first_none (pre : List Entry) :
    ∀ (seen : List (Option String)) (i : Nat) (e : Entry) (rest : List Entry),
    seen.contains (none : Option String) = false →
    (∀ p ∈ pre, p.logid ≠ none) → e.logid = none →
    (i + pre.length, e) ∈ firstOccIdx seen i (pre ++ e :: rest) := by
  induction pre with
  | nil =>
      intro seen i e rest hseen _ he
      rw [List.nil_append, firstOccIdx, he]
      rw [if_neg (fun h => by rw [hseen] at h; exact Bool.false_ne_true h)]
      simp
  | cons p pre' ih =>
      intro seen i e rest hseen hpre he
      have hp : p.logid ≠ none := hpre p (List.mem_cons_self p pre')
      have hpre' : ∀ x ∈ pre', x.logid ≠ none :=
        fun x hx => hpre x (List.mem_cons_of_mem p hx)
      have harith : i + (p :: pre').length = (i + 1) + pre'.length := by
        rw [List.length_cons]; omega
      rw [List.cons_append, firstOccIdx, harith]
      by_cases hc : seen.contains p.logid
      · rw [if_pos hc]
        exact ih seen (i + 1) e rest hseen hpre' he
      · rw [if_neg hc]
        refine List.mem_cons_of_mem _ ?_
        have hseen' : (p.logid :: seen).contains (none : Option String) = false := by
          obtain ⟨s, hs⟩ := Option.ne_none_iff_exists'.mp hp
          rw [hs, List.contains_cons, hseen]
          rfl
        exact ih (p.logid :: seen) (i + 1) e rest hseen' hpre' he

/-- Claim C10: missing logids are handled asymmetrically. For the system
category all entries without a logid attribute share the None identity, so
the normalized output holds min 1 (number of such inputs) of them, and the
first one (at its original 1-based position) is the one that survives; for
the config category every entry without a logid attribute is retained. -/
theorem missing_logid_asymmetric_dedup :
    (∀ es : List Entry,
      (parse_saved_system_logs es).countP (fun l => l.logID == none)
        = min 1 (es.countP (fun e => e.logid == none))) ∧
    (∀ es : List Entry,
      ((parse_saved_config_logs es).1).countP (fun l => l.logID == none)
        = es.countP (fun e => e.logid == none)) ∧
    (∀ (pre : List Entry) (e : Entry) (rest : List Entry),
      (∀ p ∈ pre, p.logid ≠ none) → e.logid = none →
      mkSystemLog (pre.length + 1) e ∈ parse_saved_system_logs (pre ++ e :: rest)) := by
  refine ⟨fun es => ?_, fun es => cfg_aux_countP_none es [], fun pre e rest hpre he => ?_⟩
  · rw [parse_saved_system_logs, sys_aux_eq_firstOccIdx, List.countP_map]
    have hpred : ((fun l => l.logID == none) ∘ (fun p : Nat × Entry => mkSystemLog p.1 p.2))
        = (fun p : Nat × Entry => p.2.logid == none) := by
      funext p; rfl
    rw [hpred, firstOccIdx_countP_none]
    rfl
  · rw [parse_saved_system_logs, sys_aux_eq_firstOccIdx]
    refine List.mem_map.mpr ⟨(pre.length + 1, e), ?_, rfl⟩
    have hmem := firstOccIdx_mem_first_none pre [] 1 e rest rfl hpre he
    rwa [Nat.add_comm 1 pre.length] at hmem

/-- Witness for C10: among logids A, None, None, the first None entry
survives at position 2. -/
theorem missing_logid_asymmetric_dedup_witness :
    mkSystemLog 2 eNoId ∈ parse_saved_system_logs [eA, eNoId, eNoId2] :=
  missing_logid_asymmetric_dedup.2.2 [eA] eNoId [eNoId2] (by decide) rfl

end Panorama
